import Mathlib

/-!
Shallow embedding of the ImpactIndiaAI enrichment pipeline
(`fill_summaries_locally.py`, `enrich_startups.py`, `enhance_missing_data.py`,
`categorize_startups.py`, `fetch_about_pages.py`) and proofs about the
checkpoint/resume loop, the sentinel policy, the fallback summarizer and the
fallback categorizer.

Python strings are modelled as `List Char`; Python `None` as `Option.none`;
external calls (HTTP, the Gemini API, `json.loads`) as oracle parameters.
-/

set_option maxHeartbeats 1000000

/-- Strings are modelled as lists of Unicode characters (Python `str`). -/
abbrev Str := List Char

/-- View a Lean string literal in the character-list model. -/
def str (s : String) : Str := s.data

/-- Python's whitespace class `\s` (ASCII part), as used by `re` and `str.strip`. -/
def pySpace (c : Char) : Bool :=
  c = ' ' || c = '\t' || c = '\n' || c = '\r' || c = '\x0b' || c = '\x0c'

/-- Python `hay.startswith(needle)` on character lists. -/
def strStarts : Str → Str → Bool
  | _, [] => true
  | [], _ :: _ => false
  | c :: cs, d :: ds => c = d && strStarts cs ds

/-- Python's substring test `needle in hay`. -/
def strHas : Str → Str → Bool
  | [], needle => strStarts [] needle
  | c :: cs, needle => strStarts (c :: cs) needle || strHas cs needle

/-- Python `str.lower` (ASCII part). -/
def lowerStr (t : Str) : Str := t.map Char.toLower

/-- Python `str.strip()`: drop whitespace at both ends. -/
def stripStr (t : Str) : Str :=
  ((t.dropWhile pySpace).reverse.dropWhile pySpace).reverse

/-- Embedding of `re.sub(r'\s+', ' ', text)`: every maximal whitespace run becomes one space.
The Boolean argument records whether the current run has already emitted its space. -/
def collapseWsAux : Bool → Str → Str
  | _, [] => []
  | inRun, c :: cs =>
    if pySpace c then
      if inRun then collapseWsAux true cs
      else ' ' :: collapseWsAux true cs
    else c :: collapseWsAux false cs

/-- Whitespace collapsing `re.sub(r'\s+', ' ', text)` from `LocalEnricher.clean_text`. -/
def collapseWs (t : Str) : Str := collapseWsAux false t

/-- The character class `[\s\-\:]` of `LocalEnricher.clean_text`'s second regex. -/
def aboutSepChar (c : Char) : Bool := pySpace c || c = '-' || c = ':'

/-- One alternative of `^(About Us|...)[\s\-\:]+` (IGNORECASE): if the text starts
with `kw` (case-insensitively) followed by at least one separator char, drop the
matched part; else report no match. -/
def dropOneAboutKw (t : Str) (kw : Str) : Option Str :=
  if strStarts (lowerStr t) kw then
    match t.drop kw.length with
    | c :: rest => if aboutSepChar c then some ((c :: rest).dropWhile aboutSepChar) else none
    | [] => none
  else none

/-- Embedding of `re.sub(r'^(About Us|Our Story|Welcome to|Who We Are)[\s\-\:]+', '', text, IGNORECASE)`. -/
def removeAboutW (t : Str) : Str :=
  match dropOneAboutKw t (str "about us") with
  | some r => r
  | none =>
    match dropOneAboutKw t (str "our story") with
    | some r => r
    | none =>
      match dropOneAboutKw t (str "welcome to") with
      | some r => r
      | none =>
        match dropOneAboutKw t (str "who we are") with
        | some r => r
        | none => t

/-- Embedding of `LocalEnricher.clean_text` (fill_summaries_locally.py, lines 50-59). -/
def clean_text (text : Str) : Str :=
  if text = [] then []
  else removeAboutW (stripStr (collapseWs text))

/-- Sentence-final punctuation of the regex `(?<=[.!?])\s+`. -/
def sentEnd (c : Char) : Bool := c = '.' || c = '!' || c = '?'

/-- Embedding of `re.split(r'(?<=[.!?])\s+', text)`: cut at each maximal whitespace run whose
preceding character is `.`, `!` or `?`. `acc` holds the current segment reversed;
the Boolean says whether we are inside the whitespace run of a match (in that
state `acc` is empty and further whitespace is consumed by the same match). -/
def splitSentAux : Bool → Str → Str → List Str
  | _, acc, [] => [acc.reverse]
  | true, acc, c :: cs =>
    if pySpace c then splitSentAux true acc cs else splitSentAux false [c] cs
  | false, acc, c :: cs =>
    if pySpace c && (match acc with | p :: _ => sentEnd p | [] => false) then
      acc.reverse :: splitSentAux true [] cs
    else
      splitSentAux false (c :: acc) cs

/-- The sentence split used by `LocalEnricher.extract_summary`. -/
def splitSentences (t : Str) : List Str := splitSentAux false [] t

/-- The skip condition of `extract_summary`'s loop:
`len(sent) < 5 or "cookie" in sent.lower() or "copyright" in sent.lower()`. -/
def sentSkip (s : Str) : Bool :=
  decide (s.length < 5) || strHas (lowerStr s) (str "cookie") ||
    strHas (lowerStr s) (str "copyright")

/-- The accumulation loop of `extract_summary` (fill_summaries_locally.py,
lines 71-77): skip boilerplate sentences, append the rest, break once the
accumulated character count exceeds 350. -/
def collectSentences : List Str → List Str → Nat → List Str
  | [], acc, _ => acc.reverse
  | s :: rest, acc, cnt =>
    if sentSkip s then collectSentences rest acc cnt
    else if 350 < cnt + s.length then (s :: acc).reverse
    else collectSentences rest (s :: acc) (cnt + s.length)

/-- Python `' '.join(parts)`. -/
def joinSpace (parts : List Str) : Str := List.intercalate (str " ") parts

/-- Embedding of `LocalEnricher.extract_summary` (fill_summaries_locally.py, lines 61-83):
`summary_sentences` is `collectSentences (splitSentences text) [] 0` and
`summary` is its space-join. -/
def extract_summary (text : Str) : Option Str :=
  if text = [] || decide (text.length < 20) then none
  else if collectSentences (splitSentences text) [] 0 = [] then none
  else some
    (if 400 < (joinSpace (collectSentences (splitSentences text) [] 0)).length
     then (joinSpace (collectSentences (splitSentences text) [] 0)).take 400 ++ str "..."
     else joinSpace (collectSentences (splitSentences text) [] 0))

/-- Embedding of `LocalEnricher.category_keywords` (fill_summaries_locally.py, lines 16-30),
in declaration order. -/
def category_keywords : List (Str × List Str) :=
  [ (str "Healthcare & Biotech",
      [str "health", str "medical", str "patient", str "diagnostic", str "clinic",
       str "hospital", str "pharma", str "biotech"]),
    (str "Fintech & Banking",
      [str "finance", str "bank", str "payment", str "fintech", str "loan",
       str "credit", str "wealth", str "insurtech", str "invest"]),
    (str "Education & EdTech",
      [str "education", str "learning", str "student", str "school", str "training",
       str "edtech", str "course", str "skill", str "university", str "academy"]),
    (str "Agriculture & AgriTech",
      [str "farm", str "agri", str "crop", str "harvest", str "soil", str "cattle",
       str "dairy", str "livestock"]),
    (str "Cybersecurity",
      [str "security", str "cyber", str "protection", str "threat", str "firewall",
       str "auth", str "defense", str "secure"]),
    (str "E-commerce & Retail",
      [str "retail", str "ecommerce", str "shop", str "store", str "buy", str "sell",
       str "marketplace", str "consumer"]),
    (str "Robotics & Automation",
      [str "robot", str "drone", str "automation", str "autonomous", str "unmanned"]),
    (str "Logistics & Supply Chain",
      [str "logistics", str "supply chain", str "transport", str "delivery",
       str "fleet", str "warehouse"]),
    (str "Real Estate & PropTech",
      [str "real estate", str "property", str "housing", str "construction",
       str "building"]),
    (str "HR & Workforce Management",
      [str "hr", str "recruitment", str "hiring", str "talent", str "employee",
       str "workforce"]),
    (str "Marketing & Sales Tech",
      [str "marketing", str "sales", str "adtech", str "brand", str "customer",
       str "crm"]),
    (str "Climate & Sustainability",
      [str "climate", str "sustainable", str "carbon", str "energy", str "solar",
       str "waste", str "water", str "green"]),
    (str "AI/ML Infrastructure & Tools",
      [str "ai", str "machine learning", str "ml", str "data", str "analytics",
       str "cloud", str "software", str "platform", str "algorithm", str "model"]) ]

/-- Embedding of `sum(1 for kw in keywords if kw in text_lower)`. -/
def keywordScore (textLower : Str) (kws : List Str) : Nat :=
  kws.countP (fun kw => strHas textLower kw)

/-- Python's `max(iterable, key=...)` on (category, score) pairs: keep the current
best, replace it only on a strictly greater score, so the first maximal element
in iteration order wins. -/
def pickMax : Str × Nat → List (Str × Nat) → Str × Nat
  | best, [] => best
  | best, x :: xs => pickMax (if best.2 < x.2 then x else best) xs

/-- The `scores` dict of `categorize_by_keywords`: per-category keyword scores,
keeping only positive scores, in declaration order (Python dicts preserve
insertion order). -/
def scoredCategories (textLower : Str) : List (Str × Nat) :=
  (category_keywords.map (fun p => (p.1, keywordScore textLower p.2))).filter
    (fun p => decide (0 < p.2))

/-- Embedding of `LocalEnricher.categorize_by_keywords` (fill_summaries_locally.py, lines 85-103). -/
def categorize_by_keywords (text : Str) : Str :=
  if text = [] then str "Other"
  else
    match scoredCategories (lowerStr text) with
    | [] => str "Other"
    | x :: xs => (pickMax x xs).1

/-- An entity record (§3 of the spec): the fields read or written by the
enrichment stages. Absent dict keys and `None` are both `none`. -/
structure Rec where
  name : Str
  website : Option Str
  category : Option Str
  summary : Option Str
  key_offerings : List Str
  tags : Option (List Str)
  confidence : Option Str
  linkedin_url : Option Str
deriving DecidableEq

/-- Python truthiness of a possibly-absent list field (`not startup.get('tags')`). -/
def truthyTags : Option (List Str) → Bool
  | some (_ :: _) => true
  | _ => false

/-- Python truthiness of a possibly-absent string field. -/
def truthyOptStr : Option Str → Bool
  | some (_ :: _) => true
  | _ => false

/-- Embedding of `LocalEnricher.run`'s `needs_summary` test (fill_summaries_locally.py,
lines 118-124). -/
def needs_summary_local (r : Rec) : Bool :=
  decide (r.summary = some (str "Failed to process with AI")) ||
  decide (r.summary = some (str "No information available")) ||
  decide (r.summary = none)

/-- Embedding of `LocalEnricher.run`'s `needs_category` test (line 126). -/
def needs_category_local (r : Rec) : Bool :=
  decide (r.category = some (str "Error")) || decide (r.category = some (str "No Data"))

/-- Embedding of `new_cat.split('&')[0].strip()` (line 150). -/
def splitAmp (c : Str) : Str := stripStr (c.takeWhile (fun ch => decide (ch ≠ '&')))

/-- Step "1. Fill Summary" of `LocalEnricher.run` (fill_summaries_locally.py,
lines 133-141): when the summary is needed, write the extraction result and mark
the confidence, or write the local placeholder when extraction yields nothing. -/
def localSummaryStep (cleaned_content : Str) (needs_summary : Bool)
    (startup : Rec) : Rec :=
  if needs_summary then
    match extract_summary cleaned_content with
    | some extracted =>
        { startup with summary := some extracted,
                       confidence := some (str "Low (Extracted)") }
    | none => { startup with summary := some (str "Information not available.") }
  else startup

/-- Step "2. Fill Category" of `LocalEnricher.run` (fill_summaries_locally.py,
lines 143-152): when the category is needed, categorize nonempty cleaned content
by keywords (also seeding `tags` when they are falsy), else write
"Uncategorized". The tags test reads the record as left by step 1, which never
touches tags. -/
def localCategoryStep (cleaned_content : Str) (needs_category : Bool)
    (s1 : Rec) : Rec :=
  if needs_category then
    if ¬ (cleaned_content = []) then
      let new_cat := categorize_by_keywords cleaned_content
      let s2 := { s1 with category := some new_cat }
      if truthyTags s1.tags then s2
      else { s2 with tags := some [splitAmp new_cat] }
    else { s1 with category := some (str "Uncategorized") }
  else s1

/-- The per-record body of `LocalEnricher.run`'s loop (fill_summaries_locally.py,
lines 116-154); `about_content` is `self.about_map.get(name, '')`. -/
def localEnrichOne (about_content : Str) (startup : Rec) : Rec :=
  if needs_summary_local startup || needs_category_local startup then
    localCategoryStep (clean_text about_content) (needs_category_local startup)
      (localSummaryStep (clean_text about_content) (needs_summary_local startup) startup)
  else startup

/-- The result of a successful parse of the AI response in
`StartupEnricher.enrich_with_ai` (the JSON schema of the prompt). -/
structure Enrichment where
  category : Str
  summary : Str
  key_offerings : List Str
  confidence : Str
  tags : List Str
deriving DecidableEq

/-- The "No Data" sentinel of `enrich_with_ai` (enrich_startups.py, lines 120-127). -/
def noDataEnrichment : Enrichment :=
  { category := str "No Data",
    summary := str "No information available for this startup.",
    key_offerings := [],
    confidence := str "Low",
    tags := [] }

/-- The "Error" sentinel of `enrich_with_ai` (enrich_startups.py, lines 148-156). -/
def errorEnrichment : Enrichment :=
  { category := str "Error",
    summary := str "Failed to process with AI",
    key_offerings := [],
    confidence := str "Low",
    tags := [] }

/-- The markdown-fence cleanup of `enrich_with_ai` (enrich_startups.py,
lines 140-143): if the response starts with a fence, keep only the lines that
neither start with a fence nor mention "json", rejoin and strip. -/
def stripFence (t : Str) : Str :=
  if strStarts t (str "```") then
    stripStr (List.intercalate (str "\n")
      ((t.splitOn '\n').filter
        (fun line => !(strStarts line (str "```")) && !(strHas (lowerStr line) (str "json")))))
  else t

/-- Embedding of `StartupEnricher.enrich_with_ai` (enrich_startups.py, lines 118-156).
The external call is an oracle: `none` models a raised exception, `some t` the
response text; `parse` models `json.loads`, `none` being a parse failure. -/
def enrich_with_ai (about_content : Str) (api : Option Str)
    (parse : Str → Option Enrichment) : Enrichment :=
  if about_content = [] then noDataEnrichment
  else
    match api with
    | none => errorEnrichment
    | some response =>
      match parse (stripFence (stripStr response)) with
      | none => errorEnrichment
      | some enrichment => enrichment

/-- Embedding of `StartupEnricher.categories` (enrich_startups.py, lines 32-53): the fixed
twenty-label taxonomy, identical to `StartupCategorizer.categories`. -/
def categories : List Str :=
  [ str "AI/ML Infrastructure & Tools",
    str "Healthcare & Biotech",
    str "Fintech & Banking",
    str "Education & EdTech",
    str "Agriculture & AgriTech",
    str "Cybersecurity",
    str "E-commerce & Retail",
    str "Manufacturing & Industry 4.0",
    str "Media & Entertainment",
    str "Climate & Sustainability",
    str "Logistics & Supply Chain",
    str "Legal & Compliance",
    str "HR & Workforce Management",
    str "Marketing & Sales Tech",
    str "Robotics & Automation",
    str "IoT & Smart Devices",
    str "Data Analytics & Business Intelligence",
    str "Government & Public Sector",
    str "Real Estate & PropTech",
    str "Other" ]

/-- Embedding of `StartupEnhancer`'s summary-missing test, shared by `needs_enhancement` and
`enhance_startup` (enhance_missing_data.py, lines 143-151 and 166-174): fires when
the category is an error sentinel or the summary is a known placeholder. -/
def needs_summary_enh (r : Rec) : Bool :=
  decide (r.category = some (str "Error")) || decide (r.category = some (str "No Data")) ||
  decide (r.summary = some (str "No information available")) ||
  decide (r.summary = some (str "Failed to process with AI")) ||
  decide (r.summary = some (str "No information available for this startup.")) ||
  decide (r.summary = none)

/-- Embedding of `StartupEnhancer.needs_enhancement` (enhance_missing_data.py, lines 141-155). -/
def needs_enhancement (r : Rec) : Bool :=
  needs_summary_enh r || !(truthyOptStr r.linkedin_url)

/-- Embedding of `StartupEnhancer.generate_summary_with_ai` (enhance_missing_data.py,
lines 108-139): no call for absent or short content; the API oracle is `none`
when the call raises, `some t` when it returns text (which the code strips). -/
def generate_summary_with_ai (api : Option Str) (about_content : Str) : Option Str :=
  if about_content = [] || decide (about_content.length < 50) then none
  else
    match api with
    | none => none
    | some t => some (stripStr t)

/-- The summary block of `StartupEnhancer.enhance_startup` (enhance_missing_data.py,
lines 176-186): when a summary is needed and about content is available, call the
AI; a truthy result is written together with `confidence = 'Medium'`. -/
def enhanceSummaryStep (api : Option Str) (about_content : Str)
    (needs_summary : Bool) (startup : Rec) : Rec :=
  if needs_summary then
    if ¬ (about_content = []) then
      match generate_summary_with_ai api about_content with
      | some s =>
          if s = [] then startup
          else { startup with summary := some s, confidence := some (str "Medium") }
      | none => startup
    else startup
  else startup

/-- Embedding of `StartupEnhancer.enhance_startup` (enhance_missing_data.py, lines 157-206).
`api` is the Gemini oracle, `link` the result of `search_linkedin` (an external
probe), `about_content` is `self.about_content_map.get(name, '')`; the LinkedIn
block (lines 189-199) assigns `search_linkedin`'s result — possibly `None` —
whenever the original record's `linkedin_url` is falsy. -/
def enhance_startup (api : Option Str) (link : Option Str) (about_content : Str)
    (startup : Rec) : Rec :=
  let e1 := enhanceSummaryStep api about_content (needs_summary_enh startup) startup
  if truthyOptStr startup.linkedin_url then e1 else { e1 with linkedin_url := link }

/-- A persisted stage record: the stage's join key (`name`) plus whatever body the
stage produced for it. Every stage builds its output dict with the work item's
own name as the `name` field. -/
structure Keyed (β : Type) where
  name : Str
  body : β
deriving DecidableEq

/-- Output of one stage run: the final `results` list and the work items for
which the producer was actually invoked (i.e. not skipped). -/
structure StageOut (β : Type) where
  results : List (Keyed β)
  invoked : List Str
deriving DecidableEq

/-- The shared resume loop of `StartupAboutFetcher.run` (fetch_about_pages.py,
lines 238-251), `StartupCategorizer.run` (categorize_startups.py, lines 200-213)
and `StartupEnricher.run` (enrich_startups.py, lines 239-252): iterate the work
items in order; skip an item whenever some already-stored record carries its
name (`any(r['name'] == name for r in self.results)`); otherwise invoke the
producer, append the record, and persist. -/
def runStage {ι β : Type} (key : ι → Str) (produce : ι → β) :
    List ι → List (Keyed β) → StageOut β
  | [], results => { results := results, invoked := [] }
  | item :: rest, results =>
    if results.any (fun r => decide (r.name = key item)) then
      runStage key produce rest results
    else
      let out := runStage key produce rest (results ++ [⟨key item, produce item⟩])
      { results := out.results, invoked := key item :: out.invoked }

/-- The work-window slice shared by all stage runners, e.g. enrich_startups.py,
lines 222-223: `if limit: startups = startups[start_index:start_index + limit]`.
`none` models `limit=None` (the `all` argument); Python's `if limit:` is also
false for `0`. -/
def sliceWindow {α : Type} (limit : Option Nat) (start_index : Nat)
    (items : List α) : List α :=
  match limit with
  | some l => if l ≠ 0 then (items.drop start_index).take l else items
  | none => items

/-- A stage's `run(limit, start_index)` on a given work list and prior persisted
results: slice the work list, then run the resume loop. -/
def stageRun {ι β : Type} (key : ι → Str) (produce : ι → β) (limit : Option Nat)
    (start_index : Nat) (items : List ι) (prior : List (Keyed β)) : StageOut β :=
  runStage key produce (sliceWindow limit start_index items) prior

/-- The summary placeholder values the Sentinel Policy (§4.1) classifies as
missing, as listed in `StartupEnhancer`'s checks (enhance_missing_data.py,
lines 145-150). -/
def summary_missing_vals : List Str :=
  [str "No information available", str "Failed to process with AI",
   str "No information available for this startup."]

/-- Sentinel-Policy classification of a summary value: `none` or a known
placeholder counts as missing, anything else as present. -/
def summaryMissing (o : Option Str) : Bool :=
  decide (o = none) || decide (o ∈ summary_missing_vals.map some)

/-- The category values the spec's data model admits: the fixed twenty-label
taxonomy (which already contains "Other") plus the remaining sentinels. -/
def allowed_category_values : List Str :=
  categories ++ [str "No Data", str "Error", str "Unknown"]

/-- A record holding a concrete, Sentinel-Policy-present summary together with an
"Error" category: input for exercising `enhance_startup`'s needs-summary test. -/
def presentSummaryRec : Rec :=
  { name := str "Acme",
    website := none,
    category := some (str "Error"),
    summary := some (str "Acme makes fine rockets for mining."),
    key_offerings := [],
    tags := some [str "rockets"],
    confidence := some (str "High"),
    linkedin_url := some (str "https://example.com/acme") }

/-- A record whose summary is present but whose category is "Error": input for
exercising `LocalEnricher.run`'s category-only write. -/
def categoryOnlyRec : Rec :=
  { name := str "Agro",
    website := none,
    category := some (str "Error"),
    summary := some (str "A fine existing summary."),
    key_offerings := [],
    tags := some [str "agro"],
    confidence := some (str "High"),
    linkedin_url := none }

/-- A record needing a category whose about content is empty: input for
exercising `LocalEnricher.run`'s no-content category write. -/
def noContentRec : Rec :=
  { name := str "Ghost",
    website := none,
    category := some (str "No Data"),
    summary := some (str "Fine."),
    key_offerings := [],
    tags := none,
    confidence := some (str "Low"),
    linkedin_url := none }

/-- A text of four short qualifying sentences (each at least 5 characters, no
boilerplate markers, 76 characters in total). -/
def fourSentText : Str :=
  str "Alpha builds rockets. Beta sells tools. Gamma makes apps. Delta ships goods."


/-! ## Theorems -/

/-- C3: the AI producer adapter `enrich_with_ai` returns the "No Data" sentinel
for empty content without consulting the external call, returns exactly the
"Error" sentinel when the call raises or its (fence-stripped) response fails to
parse as JSON, and the two sentinels are distinct. -/
theorem enrich_with_ai_sentinels :
    (∀ (api : Option Str) (parse : Str → Option Enrichment),
        enrich_with_ai [] api parse = noDataEnrichment) ∧
    (∀ (about : Str) (parse : Str → Option Enrichment),
        about ≠ [] → enrich_with_ai about none parse = errorEnrichment) ∧
    (∀ (about response : Str) (parse : Str → Option Enrichment),
        about ≠ [] → parse (stripFence (stripStr response)) = none →
        enrich_with_ai about (some response) parse = errorEnrichment) ∧
    noDataEnrichment ≠ errorEnrichment := by
  refine ⟨fun api parse => rfl, fun about parse h => ?_, fun about response parse h hp => ?_, by decide⟩
  · simp [enrich_with_ai, h]
  · simp [enrich_with_ai, h, hp]

/-- Witness for C3 at concrete inputs. -/
theorem enrich_with_ai_sentinels_witness :
    enrich_with_ai [] (some (str "ignored")) (fun _ => some noDataEnrichment) = noDataEnrichment ∧
    (str "acme" ≠ ([] : Str)) ∧
    enrich_with_ai (str "acme") none (fun _ => some noDataEnrichment) = errorEnrichment ∧
    enrich_with_ai (str "acme") (some (str "not json")) (fun _ => none) = errorEnrichment :=
  ⟨enrich_with_ai_sentinels.1 _ _, by decide,
   enrich_with_ai_sentinels.2.1 _ _ (by decide),
   enrich_with_ai_sentinels.2.2.1 _ _ _ (by decide) rfl⟩

/-- C4 (code behavior at the failing input): when `limit` is `None` (the `all`
argument), the slice guarded by `if limit:` is skipped entirely, so the
`start_index` offset is ignored and every item — including those before the
offset — is processed. -/
theorem run_all_ignores_start_index :
    (∀ (start_index : Nat) (items : List Str),
        sliceWindow none start_index items = items) ∧
    (stageRun (fun n => n) (fun n => n) none 2 [str "A", str "B", str "C"] []).invoked
      = [str "A", str "B", str "C"] ∧
    (stageRun (fun n => n) (fun n => n) none 2 [str "A", str "B", str "C"] []).invoked
      ≠ [str "C"] := by
  refine ⟨fun s items => rfl, by decide, by decide⟩

/-- C5 (code behavior at the failing input): `extract_summary`'s loop has no
three-sentence stop — on a text of four short qualifying sentences whose first
three total well under 350 characters, all four sentences are collected and the
returned summary contains all four. -/
theorem extract_summary_ignores_three_limit :
    (collectSentences (splitSentences fourSentText) [] 0).length = 4 ∧
    (((collectSentences (splitSentences fourSentText) [] 0).take 3).map
        List.length).sum ≤ 350 ∧
    extract_summary fourSentText = some fourSentText := by
  refine ⟨by decide, by decide, by decide⟩

/-- The running best of Python's `max` is a lower bound for the result. -/
theorem pickMax_le_self : ∀ (xs : List (Str × Nat)) (b : Str × Nat),
    b.2 ≤ (pickMax b xs).2
  | [], _ => le_refl _
  | x :: xs, b => by
    simp only [pickMax]
    by_cases h : b.2 < x.2
    · simp only [if_pos h]
      exact le_trans (le_of_lt h) (pickMax_le_self xs x)
    · simp only [if_neg h]
      exact pickMax_le_self xs b

/-- Every candidate's score is at most the score of Python's `max`. -/
theorem pickMax_le : ∀ (xs : List (Str × Nat)) (b : Str × Nat),
    ∀ x ∈ xs, x.2 ≤ (pickMax b xs).2
  | [], _, x, hx => absurd hx (List.not_mem_nil x)
  | y :: xs, b, x, hx => by
    simp only [pickMax]
    rcases List.mem_cons.mp hx with h | h
    · subst h
      by_cases hlt : b.2 < x.2
      · simpa [if_pos hlt] using pickMax_le_self xs x
      · exact le_trans (Nat.le_of_not_lt hlt)
          (by simpa [if_neg hlt] using pickMax_le_self xs b)
    · exact pickMax_le xs (if b.2 < y.2 then y else b) x h

/-- Python's `max` returns the first maximal element: the candidate list splits
around the result, and everything before it scores strictly less. -/
theorem pickMax_split : ∀ (xs : List (Str × Nat)) (b : Str × Nat),
    ∃ l1 l2, b :: xs = l1 ++ (pickMax b xs) :: l2 ∧
      ∀ y ∈ l1, y.2 < (pickMax b xs).2
  | [], b => ⟨[], [], rfl, by simp⟩
  | x :: xs, b => by
    simp only [pickMax]
    by_cases h : b.2 < x.2
    · simp only [if_pos h]
      obtain ⟨l1, l2, heq, hlt⟩ := pickMax_split xs x
      refine ⟨b :: l1, l2, ?_, ?_⟩
      · rw [List.cons_append, ← heq]
      · intro y hy
        rcases List.mem_cons.mp hy with hy | hy
        · subst hy
          exact lt_of_lt_of_le h (pickMax_le_self xs x)
        · exact hlt y hy
    · simp only [if_neg h]
      obtain ⟨l1, l2, heq, hlt⟩ := pickMax_split xs b
      cases l1 with
      | nil =>
        simp only [List.nil_append] at heq
        have hb : pickMax b xs = b := (List.cons.inj heq).1.symm
        refine ⟨[], x :: xs, ?_, by simp⟩
        rw [hb]
        rfl
      | cons a l1' =>
        obtain ⟨ha, hxs⟩ := List.cons.inj heq
        have hblt : b.2 < (pickMax b xs).2 := by
          have := hlt a (List.mem_cons_self a l1')
          rwa [← ha] at this
        refine ⟨b :: x :: l1', l2, ?_, ?_⟩
        · exact congrArg (fun t => b :: x :: t) hxs
        · intro y hy
          rcases List.mem_cons.mp hy with hy | hy
          · subst hy; exact hblt
          · rcases List.mem_cons.mp hy with hy | hy
            · subst hy; exact lt_of_le_of_lt (Nat.le_of_not_lt h) hblt
            · exact hlt y (List.mem_cons_of_mem a hy)

/-- Python's `max` over a nonempty candidate list returns one of the candidates. -/
theorem pickMax_mem_cons (xs : List (Str × Nat)) (b : Str × Nat) :
    pickMax b xs ∈ b :: xs := by
  obtain ⟨l1, l2, heq, -⟩ := pickMax_split xs b
  rw [heq]
  exact List.mem_append.mpr (Or.inr (List.mem_cons_self _ _))

/-- A split of a filtered map pulls back to a split of the underlying list:
the entries of the source before the distinguished element are exactly those
whose images survive the filter into the first part. -/
theorem filter_map_decomp {α β : Type} (g : α → β) (f : β → Bool) :
    ∀ (l : List α) (s1 : List β) (r : β) (s2 : List β),
      (l.map g).filter f = s1 ++ r :: s2 →
      ∃ l1 a l2, l = l1 ++ a :: l2 ∧ g a = r ∧ (l1.map g).filter f = s1
  | [], s1, r, s2, h => by simp at h
  | a :: l, s1, r, s2, h => by
    rw [List.map_cons, List.filter_cons] at h
    by_cases hf : f (g a)
    · rw [if_pos hf] at h
      cases s1 with
      | nil =>
        simp only [List.nil_append] at h
        exact ⟨[], a, l, rfl, (List.cons.inj h).1, by simp⟩
      | cons y s1' =>
        rw [List.cons_append] at h
        obtain ⟨h1, h2⟩ := List.cons.inj h
        obtain ⟨l1, b, l2, hl, hg, hs⟩ := filter_map_decomp g f l s1' r s2 h2
        exact ⟨a :: l1, b, l2, by rw [List.cons_append, ← hl], hg,
          by rw [List.map_cons, List.filter_cons, if_pos hf, h1, hs]⟩
    · rw [if_neg hf] at h
      obtain ⟨l1, b, l2, hl, hg, hs⟩ := filter_map_decomp g f l s1 r s2 h
      exact ⟨a :: l1, b, l2, by rw [List.cons_append, ← hl], hg,
        by simp [List.filter_cons, hf, hs]⟩

/-- C6: `categorize_by_keywords` scores the ordered keyword mapping against the
case-folded text, returns a maximal-score category, breaks ties in favour of the
earlier-declared category (all earlier categories score strictly less), returns
"Other" when no keyword matches, and on "drone fleet" (one Robotics keyword, one
Logistics keyword) the earlier-declared Robotics category wins. -/
theorem categorize_by_keywords_spec (text : Str) :
    ((∀ p ∈ category_keywords, keywordScore (lowerStr text) p.2 = 0) →
        categorize_by_keywords text = str "Other") ∧
    ((∃ p ∈ category_keywords, 0 < keywordScore (lowerStr text) p.2) →
      ∃ l1 p l2, category_keywords = l1 ++ p :: l2 ∧
        categorize_by_keywords text = p.1 ∧
        0 < keywordScore (lowerStr text) p.2 ∧
        (∀ q ∈ category_keywords,
            keywordScore (lowerStr text) q.2 ≤ keywordScore (lowerStr text) p.2) ∧
        (∀ q ∈ l1,
            keywordScore (lowerStr text) q.2 < keywordScore (lowerStr text) p.2)) ∧
    categorize_by_keywords (str "drone fleet") = str "Robotics & Automation" := by
  refine ⟨?_, ?_, by decide⟩
  · intro hz
    by_cases ht : text = []
    · simp [categorize_by_keywords, ht]
    · have hnil : scoredCategories (lowerStr text) = [] := by
        apply List.filter_eq_nil_iff.mpr
        intro y hy
        obtain ⟨p, hp, hgp⟩ := List.mem_map.mp hy
        subst hgp
        simp [hz p hp]
      simp [categorize_by_keywords, ht, hnil]
  · rintro ⟨p0, hp0, hpos⟩
    have ht : text ≠ [] := by
      intro h
      have hz : ∀ p ∈ category_keywords, keywordScore (lowerStr []) p.2 = 0 := by decide
      rw [h] at hpos
      simp [hz p0 hp0] at hpos
    have hmem0 : (p0.1, keywordScore (lowerStr text) p0.2) ∈ scoredCategories (lowerStr text) :=
      List.mem_filter.mpr ⟨List.mem_map.mpr ⟨p0, hp0, rfl⟩, by simpa using hpos⟩
    cases hs : scoredCategories (lowerStr text) with
    | nil => rw [hs] at hmem0; exact absurd hmem0 (List.not_mem_nil _)
    | cons x xs =>
      have hcatval : categorize_by_keywords text = (pickMax x xs).1 := by
        simp [categorize_by_keywords, ht, hs]
      have hrmem : pickMax x xs ∈ scoredCategories (lowerStr text) := by
        rw [hs]; exact pickMax_mem_cons xs x
      have hrpos : 0 < (pickMax x xs).2 := by
        have := (List.mem_filter.mp hrmem).2
        simpa using this
      obtain ⟨s1, s2, heq, hflt⟩ := pickMax_split xs x
      have hscored : (category_keywords.map
          (fun p => (p.1, keywordScore (lowerStr text) p.2))).filter
          (fun p => decide (0 < p.2)) = s1 ++ (pickMax x xs) :: s2 := by
        show scoredCategories (lowerStr text) = s1 ++ (pickMax x xs) :: s2
        rw [hs, heq]
      obtain ⟨l1, a, l2, hcat, hga, hs1⟩ :=
        filter_map_decomp (fun p => (p.1, keywordScore (lowerStr text) p.2))
          (fun p => decide (0 < p.2)) category_keywords s1 _ s2 hscored
      have ha2 : keywordScore (lowerStr text) a.2 = (pickMax x xs).2 :=
        congrArg Prod.snd hga
      refine ⟨l1, a, l2, hcat, ?_, ?_, ?_, ?_⟩
      · rw [hcatval, ← hga]
      · rw [ha2]; exact hrpos
      · intro q hq
        by_cases hfq : 0 < keywordScore (lowerStr text) q.2
        · have hqm : (q.1, keywordScore (lowerStr text) q.2) ∈ scoredCategories (lowerStr text) :=
            List.mem_filter.mpr ⟨List.mem_map.mpr ⟨q, hq, rfl⟩, by simpa using hfq⟩
          rw [hs] at hqm
          rw [ha2]
          rcases List.mem_cons.mp hqm with h | h
          · rw [show keywordScore (lowerStr text) q.2 = x.2 from congrArg Prod.snd h]
            exact pickMax_le_self xs x
          · exact pickMax_le xs x _ h
        · rw [ha2, Nat.eq_zero_of_not_pos hfq]
          exact Nat.zero_le _
      · intro q hq
        by_cases hfq : 0 < keywordScore (lowerStr text) q.2
        · have hqm : (q.1, keywordScore (lowerStr text) q.2) ∈ (l1.map
              (fun p => (p.1, keywordScore (lowerStr text) p.2))).filter
              (fun p => decide (0 < p.2)) :=
            List.mem_filter.mpr ⟨List.mem_map.mpr ⟨q, hq, rfl⟩, by simpa using hfq⟩
          rw [hs1] at hqm
          rw [ha2]
          exact hflt _ hqm
        · rw [ha2, Nat.eq_zero_of_not_pos hfq]
          exact hrpos

/-- Witness for C6 at concrete inputs: a keyword-free text classifies as
"Other"; "drone fleet" has a positive score and the earlier-declared category
wins the tie. -/
theorem categorize_by_keywords_spec_witness :
    categorize_by_keywords (str "zzz qqq") = str "Other" ∧
    categorize_by_keywords (str "drone fleet") = str "Robotics & Automation" ∧
    (∃ l1 p l2, category_keywords = l1 ++ p :: l2 ∧
        categorize_by_keywords (str "drone fleet") = p.1 ∧
        0 < keywordScore (lowerStr (str "drone fleet")) p.2 ∧
        (∀ q ∈ category_keywords,
            keywordScore (lowerStr (str "drone fleet")) q.2 ≤
              keywordScore (lowerStr (str "drone fleet")) p.2) ∧
        (∀ q ∈ l1,
            keywordScore (lowerStr (str "drone fleet")) q.2 <
              keywordScore (lowerStr (str "drone fleet")) p.2)) :=
  ⟨(categorize_by_keywords_spec (str "zzz qqq")).1 (by decide),
   (categorize_by_keywords_spec (str "drone fleet")).2.2,
   (categorize_by_keywords_spec (str "drone fleet")).2.1 (by decide)⟩

/-- The sentences collected by `extract_summary`'s loop are a prefix of the
qualifying (non-skipped) sentences, in original order. -/
theorem collectSentences_eq_take : ∀ (l : List Str) (acc : List Str) (cnt : Nat),
    ∃ m, collectSentences l acc cnt =
      acc.reverse ++ ((l.filter (fun s => !(sentSkip s))).take m)
  | [], acc, cnt => ⟨0, by simp [collectSentences]⟩
  | s :: rest, acc, cnt => by
    by_cases hskip : sentSkip s = true
    · obtain ⟨m, hm⟩ := collectSentences_eq_take rest acc cnt
      refine ⟨m, ?_⟩
      simp only [collectSentences]
      rw [if_pos hskip, hm, List.filter_cons, if_neg (by simp [hskip])]
    · by_cases hbig : 350 < cnt + s.length
      · refine ⟨1, ?_⟩
        simp only [collectSentences]
        rw [if_neg hskip, if_pos hbig, List.filter_cons,
          if_pos (by simp [Bool.not_eq_true] at hskip; simp [hskip])]
        simp
      · obtain ⟨m, hm⟩ := collectSentences_eq_take rest (s :: acc) (cnt + s.length)
        refine ⟨m + 1, ?_⟩
        simp only [collectSentences]
        rw [if_neg hskip, if_neg hbig, hm, List.filter_cons,
          if_pos (by simp [Bool.not_eq_true] at hskip; simp [hskip])]
        simp

/-- C7: `extract_summary` returns `none` for empty or sub-20-character texts and
when no sentence qualifies; otherwise the summary is a (possibly truncated to
400 characters plus an ellipsis, so at most 403) space-join of a prefix of the
qualifying sentences, each at least 5 characters and free of "cookie" and
"copyright" (case-insensitively). -/
theorem extract_summary_props (text : Str) :
    ((text = [] ∨ text.length < 20) → extract_summary text = none) ∧
    ((splitSentences text).filter (fun s => !(sentSkip s)) = [] →
        extract_summary text = none) ∧
    (∀ out, extract_summary text = some out →
      out.length ≤ 403 ∧
      ∃ kept m,
        kept = ((splitSentences text).filter (fun s => !(sentSkip s))).take m ∧
        kept ≠ [] ∧
        (∀ s ∈ kept, 5 ≤ s.length ∧ strHas (lowerStr s) (str "cookie") = false ∧
          strHas (lowerStr s) (str "copyright") = false) ∧
        out = (if 400 < (joinSpace kept).length
               then (joinSpace kept).take 400 ++ str "..." else joinSpace kept)) := by
  refine ⟨?_, ?_, ?_⟩
  · intro h
    have hcond : (text = [] || decide (text.length < 20)) = true := by
      rcases h with h | h <;> simp [h]
    unfold extract_summary
    rw [if_pos hcond]
  · intro hfe
    obtain ⟨m, hm⟩ := collectSentences_eq_take (splitSentences text) [] 0
    rw [hfe] at hm
    simp only [List.reverse_nil, List.nil_append, List.take_nil] at hm
    by_cases hcond : (text = [] || decide (text.length < 20)) = true
    · unfold extract_summary
      rw [if_pos hcond]
    · unfold extract_summary
      rw [if_neg hcond, if_pos hm]
  · intro out hout
    by_cases hcond : (text = [] || decide (text.length < 20)) = true
    · unfold extract_summary at hout
      rw [if_pos hcond] at hout
      exact absurd hout (by simp)
    · unfold extract_summary at hout
      rw [if_neg hcond] at hout
      by_cases hk : collectSentences (splitSentences text) [] 0 = []
      · rw [if_pos hk] at hout
        exact absurd hout (by simp)
      · rw [if_neg hk] at hout
        have hout' := (Option.some.inj hout).symm
        obtain ⟨m, hm⟩ := collectSentences_eq_take (splitSentences text) [] 0
        simp only [List.reverse_nil, List.nil_append] at hm
        refine ⟨?_, collectSentences (splitSentences text) [] 0, m, hm, hk, ?_, hout'⟩
        · rw [hout']
          by_cases hlen : 400 <
              (joinSpace (collectSentences (splitSentences text) [] 0)).length
          · rw [if_pos hlen, List.length_append, List.length_take]
            have h3 : (str "...").length = 3 := by decide
            rw [h3]
            exact Nat.add_le_add_right (Nat.min_le_left _ _) 3
          · rw [if_neg hlen]
            exact le_trans (Nat.le_of_not_lt hlen) (by norm_num)
        · intro s hs
          rw [hm] at hs
          have hsmem := List.mem_of_mem_take hs
          have hqual := (List.mem_filter.mp hsmem).2
          rw [Bool.not_eq_true'] at hqual
          simp only [sentSkip, Bool.or_eq_false_iff, decide_eq_false_iff_not] at hqual
          exact ⟨Nat.le_of_not_lt hqual.1.1, hqual.1.2, hqual.2⟩

/-- Witness for C7 at concrete inputs: a 2-character text and a text whose only
sentence is boilerplate both map to `none`; a four-sentence text maps to a
summary of length at most 403. -/
theorem extract_summary_props_witness :
    extract_summary (str "Hi") = none ∧
    extract_summary (str "Our cookie policy page.") = none ∧
    (str "Alpha builds rockets. Beta sells tools. Gamma makes apps. Delta ships goods.").length ≥ 20 ∧
    ((str "Alpha builds rockets. Beta sells tools. Gamma makes apps. Delta ships goods.")).length ≤ 403 :=
  ⟨(extract_summary_props (str "Hi")).1 (Or.inr (by decide)),
   (extract_summary_props (str "Our cookie policy page.")).2.1 (by decide),
   by decide,
   ((extract_summary_props fourSentText).2.2 fourSentText (by decide)).1⟩

/-- The function `localEnrichOne` keeps `name`, `website`, `key_offerings` and `linkedin_url`
of every record unchanged. -/
theorem localEnrichOne_frame (about : Str) (r : Rec) :
    (localEnrichOne about r).name = r.name ∧
    (localEnrichOne about r).website = r.website ∧
    (localEnrichOne about r).key_offerings = r.key_offerings ∧
    (localEnrichOne about r).linkedin_url = r.linkedin_url := by
  unfold localEnrichOne localCategoryStep localSummaryStep
  by_cases hs : needs_summary_local r = true <;>
    by_cases hc : needs_category_local r = true <;>
      by_cases hcl : clean_text about = [] <;>
        rcases hext : extract_summary (clean_text about) with _ | ex <;>
          by_cases ht : truthyTags r.tags = true <;>
            simp [hs, hc, hcl, hext, ht]

/-- The summary written by `localEnrichOne`: untouched unless the record's
summary is missing, then the extraction result or the local placeholder. -/
theorem localEnrichOne_summary (about : Str) (r : Rec) :
    (localEnrichOne about r).summary =
      if needs_summary_local r = true then
        (match extract_summary (clean_text about) with
         | some ex => some ex
         | none => some (str "Information not available."))
      else r.summary := by
  unfold localEnrichOne localCategoryStep localSummaryStep
  by_cases hs : needs_summary_local r = true <;>
    by_cases hc : needs_category_local r = true <;>
      by_cases hcl : clean_text about = [] <;>
        rcases hext : extract_summary (clean_text about) with _ | ex <;>
          by_cases ht : truthyTags r.tags = true <;>
            simp [hs, hc, hcl, hext, ht]

/-- The confidence written by `localEnrichOne`: marked "Low (Extracted)" exactly
when a summary was extracted, untouched otherwise — in particular untouched by
category-only writes. -/
theorem localEnrichOne_confidence (about : Str) (r : Rec) :
    (localEnrichOne about r).confidence =
      if needs_summary_local r = true then
        (match extract_summary (clean_text about) with
         | some _ => some (str "Low (Extracted)")
         | none => r.confidence)
      else r.confidence := by
  unfold localEnrichOne localCategoryStep localSummaryStep
  by_cases hs : needs_summary_local r = true <;>
    by_cases hc : needs_category_local r = true <;>
      by_cases hcl : clean_text about = [] <;>
        rcases hext : extract_summary (clean_text about) with _ | ex <;>
          by_cases ht : truthyTags r.tags = true <;>
            simp [hs, hc, hcl, hext, ht]

/-- The category written by `localEnrichOne`: untouched unless the record's
category is a sentinel, then the keyword classification of nonempty cleaned
content or "Uncategorized". -/
theorem localEnrichOne_category (about : Str) (r : Rec) :
    (localEnrichOne about r).category =
      if needs_category_local r = true then
        (if clean_text about = [] then some (str "Uncategorized")
         else some (categorize_by_keywords (clean_text about)))
      else r.category := by
  unfold localEnrichOne localCategoryStep localSummaryStep
  by_cases hs : needs_summary_local r = true <;>
    by_cases hc : needs_category_local r = true <;>
      by_cases hcl : clean_text about = [] <;>
        rcases hext : extract_summary (clean_text about) with _ | ex <;>
          by_cases ht : truthyTags r.tags = true <;>
            simp [hs, hc, hcl, hext, ht]

/-- The tags written by `localEnrichOne`: seeded from the new category exactly
when a category was written from content and the existing tags are falsy. -/
theorem localEnrichOne_tags (about : Str) (r : Rec) :
    (localEnrichOne about r).tags =
      if needs_category_local r = true ∧ ¬ clean_text about = [] ∧
          truthyTags r.tags = false then
        some [splitAmp (categorize_by_keywords (clean_text about))]
      else r.tags := by
  unfold localEnrichOne localCategoryStep localSummaryStep
  by_cases hs : needs_summary_local r = true <;>
    by_cases hc : needs_category_local r = true <;>
      by_cases hcl : clean_text about = [] <;>
        rcases hext : extract_summary (clean_text about) with _ | ex <;>
          by_cases ht : truthyTags r.tags = true <;>
            simp [hs, hc, hcl, hext, ht]

/-- The function `enhanceSummaryStep` either leaves the record unchanged or writes an AI
summary together with `confidence = "Medium"`, the latter only when the
needs-summary test fired. -/
theorem enhanceSummaryStep_cases (api : Option Str) (about : Str) (b : Bool)
    (s : Rec) :
    enhanceSummaryStep api about b s = s ∨
    (b = true ∧ ∃ t, enhanceSummaryStep api about b s =
        { s with summary := some t, confidence := some (str "Medium") }) := by
  cases b with
  | false => exact Or.inl rfl
  | true =>
    by_cases ha : about = []
    · left; simp [enhanceSummaryStep, ha]
    · rcases hgen : generate_summary_with_ai api about with _ | g
      · left; simp [enhanceSummaryStep, ha, hgen]
      · by_cases hg : g = []
        · left; simp [enhanceSummaryStep, ha, hgen, hg]
        · right
          exact ⟨rfl, g, by simp [enhanceSummaryStep, ha, hgen, hg]⟩

/-- The function `enhance_startup` keeps `name`, `website`, `category`, `key_offerings` and
`tags` unchanged, and its `summary` and `confidence` agree with its summary step. -/
theorem enhance_startup_proj (api link : Option Str) (about : Str) (s : Rec) :
    (enhance_startup api link about s).name = s.name ∧
    (enhance_startup api link about s).website = s.website ∧
    (enhance_startup api link about s).category = s.category ∧
    (enhance_startup api link about s).key_offerings = s.key_offerings ∧
    (enhance_startup api link about s).tags = s.tags ∧
    (enhance_startup api link about s).summary =
      (enhanceSummaryStep api about (needs_summary_enh s) s).summary ∧
    (enhance_startup api link about s).confidence =
      (enhanceSummaryStep api about (needs_summary_enh s) s).confidence ∧
    (enhance_startup api link about s).linkedin_url =
      (if truthyOptStr s.linkedin_url = true then s.linkedin_url else link) := by
  have hst := enhanceSummaryStep_cases api about (needs_summary_enh s) s
  by_cases hl : truthyOptStr s.linkedin_url = true <;>
    rcases hst with hst | ⟨hb, t, hst⟩ <;>
      simp [enhance_startup, hst, hl]

/-- C2 counterexample: `enhance_startup` overwrites a summary the Sentinel
Policy classifies as present (because its needs-summary test also fires on a
category of "Error"), at the concrete record `presentSummaryRec`. -/
theorem monotonic_enrichment_cex :
    summaryMissing presentSummaryRec.summary = false ∧
    (enhance_startup (some (str "Fresh AI summary of Acme."))
        none
        (str "Acme Industries builds predictive maintenance software for factories.")
        presentSummaryRec).summary ≠ presentSummaryRec.summary := by
  refine ⟨by decide, by decide⟩

/-- C2 amended: per stage, each field is unchanged or rewritten only when that
stage's own missing test fired; `enhance_startup`'s summary test also fires on
sentinel categories, and confidence is rewritten as a side effect of summary
writes. -/
theorem monotonic_enrichment_amended (about aboutE : Str) (api link : Option Str)
    (r s : Rec) :
    ((localEnrichOne about r).name = r.name ∧
     (localEnrichOne about r).website = r.website ∧
     (localEnrichOne about r).key_offerings = r.key_offerings ∧
     (localEnrichOne about r).linkedin_url = r.linkedin_url ∧
     ((localEnrichOne about r).summary = r.summary ∨ needs_summary_local r = true) ∧
     ((localEnrichOne about r).category = r.category ∨ needs_category_local r = true) ∧
     ((localEnrichOne about r).tags = r.tags ∨
        (truthyTags r.tags = false ∧ needs_category_local r = true)) ∧
     ((localEnrichOne about r).confidence = r.confidence ∨
        (needs_summary_local r = true ∧
         (localEnrichOne about r).confidence = some (str "Low (Extracted)")))) ∧
    ((enhance_startup api link aboutE s).name = s.name ∧
     (enhance_startup api link aboutE s).website = s.website ∧
     (enhance_startup api link aboutE s).category = s.category ∧
     (enhance_startup api link aboutE s).key_offerings = s.key_offerings ∧
     (enhance_startup api link aboutE s).tags = s.tags ∧
     ((enhance_startup api link aboutE s).summary = s.summary ∨
        needs_summary_enh s = true) ∧
     ((enhance_startup api link aboutE s).confidence = s.confidence ∨
        (needs_summary_enh s = true ∧
         (enhance_startup api link aboutE s).confidence = some (str "Medium"))) ∧
     ((enhance_startup api link aboutE s).linkedin_url = s.linkedin_url ∨
        truthyOptStr s.linkedin_url = false)) := by
  obtain ⟨hn, hw, hk, hl⟩ := localEnrichOne_frame about r
  refine ⟨⟨hn, hw, hk, hl, ?_, ?_, ?_, ?_⟩, ?_⟩
  · rw [localEnrichOne_summary]
    by_cases hs : needs_summary_local r = true
    · exact Or.inr hs
    · rw [if_neg hs]; exact Or.inl rfl
  · rw [localEnrichOne_category]
    by_cases hc : needs_category_local r = true
    · exact Or.inr hc
    · rw [if_neg hc]; exact Or.inl rfl
  · rw [localEnrichOne_tags]
    by_cases hcond : needs_category_local r = true ∧ ¬ clean_text about = [] ∧
        truthyTags r.tags = false
    · exact Or.inr ⟨hcond.2.2, hcond.1⟩
    · rw [if_neg hcond]; exact Or.inl rfl
  · rw [localEnrichOne_confidence]
    by_cases hs : needs_summary_local r = true
    · rw [if_pos hs]
      rcases extract_summary (clean_text about) with _ | ex
      · exact Or.inl rfl
      · exact Or.inr ⟨hs, rfl⟩
    · rw [if_neg hs]; exact Or.inl rfl
  · obtain ⟨hn2, hw2, hc2, hk2, ht2, hsum, hconf, hlink⟩ :=
      enhance_startup_proj api link aboutE s
    refine ⟨hn2, hw2, hc2, hk2, ht2, ?_, ?_, ?_⟩
    · rcases enhanceSummaryStep_cases api aboutE (needs_summary_enh s) s with
        hst | ⟨hb, t, hst⟩
      · rw [hsum, hst]; exact Or.inl rfl
      · exact Or.inr hb
    · rcases enhanceSummaryStep_cases api aboutE (needs_summary_enh s) s with
        hst | ⟨hb, t, hst⟩
      · rw [hconf, hst]; exact Or.inl rfl
      · rw [hconf, hst]; exact Or.inr ⟨hb, rfl⟩
    · by_cases hl2 : truthyOptStr s.linkedin_url = true
      · rw [hlink, if_pos hl2]; exact Or.inl rfl
      · right; simpa using hl2

/-- Witness for the amended C2 at a concrete record and oracles. -/
theorem monotonic_enrichment_amended_witness :
    (localEnrichOne (str "We build farm tools.") noContentRec).name = noContentRec.name ∧
    ((enhance_startup none none (str "short") presentSummaryRec).summary =
        presentSummaryRec.summary ∨ needs_summary_enh presentSummaryRec = true) :=
  ⟨(monotonic_enrichment_amended (str "We build farm tools.") (str "short")
      none none noContentRec presentSummaryRec).1.1,
   (monotonic_enrichment_amended (str "We build farm tools.") (str "short")
      none none noContentRec presentSummaryRec).2.2.2.2.2.2.1⟩

/-- C9 counterexample: a category-only write by `LocalEnricher.run` changes the
category but leaves the previous confidence ("High") in place. -/
theorem confidence_stale_on_category_write :
    (localEnrichOne (str "We build dairy farm tools for the crop harvest season.")
        categoryOnlyRec).category ≠ categoryOnlyRec.category ∧
    (localEnrichOne (str "We build dairy farm tools for the crop harvest season.")
        categoryOnlyRec).confidence = categoryOnlyRec.confidence ∧
    categoryOnlyRec.confidence = some (str "High") := by
  refine ⟨by decide, by decide, by decide⟩

/-- C9 amended: `LocalEnricher.run` sets confidence "Low (Extracted)" exactly
when it fills a summary by extraction and `enhance_startup` sets "Medium"
whenever it changes the summary; but a write that changes only the category
(or the local placeholder-summary write) leaves confidence unchanged. -/
theorem confidence_provenance_amended :
    (∀ (about : Str) (r : Rec) (ex : Str),
        needs_summary_local r = true →
        extract_summary (clean_text about) = some ex →
        (localEnrichOne about r).summary = some ex ∧
        (localEnrichOne about r).confidence = some (str "Low (Extracted)")) ∧
    (∀ (about : Str) (r : Rec),
        needs_summary_local r = true →
        extract_summary (clean_text about) = none →
        (localEnrichOne about r).summary = some (str "Information not available.") ∧
        (localEnrichOne about r).confidence = r.confidence) ∧
    (∀ (about : Str) (r : Rec), needs_summary_local r = false →
        (localEnrichOne about r).summary = r.summary ∧
        (localEnrichOne about r).confidence = r.confidence) ∧
    (∀ (api link : Option Str) (about : Str) (s : Rec),
        (enhance_startup api link about s).summary ≠ s.summary →
        (enhance_startup api link about s).confidence = some (str "Medium")) := by
  refine ⟨?_, ?_, ?_, ?_⟩
  · intro about r ex hs hext
    rw [localEnrichOne_summary, localEnrichOne_confidence, if_pos hs, if_pos hs, hext]
    exact ⟨rfl, rfl⟩
  · intro about r hs hext
    rw [localEnrichOne_summary, localEnrichOne_confidence, if_pos hs, if_pos hs, hext]
    exact ⟨rfl, rfl⟩
  · intro about r hs
    rw [localEnrichOne_summary, localEnrichOne_confidence]
    rw [if_neg (by simp [hs]), if_neg (by simp [hs])]
    exact ⟨rfl, rfl⟩
  · intro api link about s hchanged
    obtain ⟨-, -, -, -, -, hsum, hconf, -⟩ := enhance_startup_proj api link about s
    rcases enhanceSummaryStep_cases api about (needs_summary_enh s) s with
      hst | ⟨hb, t, hst⟩
    · rw [hsum, hst] at hchanged
      exact absurd rfl hchanged
    · rw [hconf, hst]

/-- Witness for the amended C9 at concrete inputs. -/
theorem confidence_provenance_amended_witness :
    needs_summary_local noContentRec = false ∧
    (localEnrichOne (str "ignored") noContentRec).confidence =
      noContentRec.confidence :=
  ⟨by decide,
   ((confidence_provenance_amended.2.2.1 (str "ignored") noContentRec (by decide)).2)⟩

/-- C10: when `LocalEnricher.run` fills a category from nonempty cleaned content,
it writes the keyword category; falsy tags are overwritten with the one-element
list holding the label's text before the first ampersand, stripped, while
non-falsy tags are kept unchanged. -/
theorem local_tags_seed (about : Str) (r : Rec)
    (hc : needs_category_local r = true) (hcl : clean_text about ≠ []) :
    (localEnrichOne about r).category =
      some (categorize_by_keywords (clean_text about)) ∧
    (truthyTags r.tags = false →
        (localEnrichOne about r).tags =
          some [splitAmp (categorize_by_keywords (clean_text about))]) ∧
    (truthyTags r.tags = true → (localEnrichOne about r).tags = r.tags) := by
  refine ⟨?_, ?_, ?_⟩
  · rw [localEnrichOne_category, if_pos hc, if_neg hcl]
  · intro ht
    rw [localEnrichOne_tags, if_pos ⟨hc, hcl, ht⟩]
  · intro ht
    rw [localEnrichOne_tags, if_neg (by simp [ht])]

/-- Witness for C10: a record with falsy tags and category "No Data" gets
"Agriculture" seeded as its tag; the label before the ampersand is stripped. -/
theorem local_tags_seed_witness :
    needs_category_local noContentRec = true ∧
    clean_text (str "We build dairy farm tools for the crop harvest season.") ≠ [] ∧
    truthyTags noContentRec.tags = false ∧
    (localEnrichOne (str "We build dairy farm tools for the crop harvest season.")
        noContentRec).tags = some [str "Agriculture"] := by
  refine ⟨by decide, by decide, by decide, ?_⟩
  have h := (local_tags_seed
      (str "We build dairy farm tools for the crop harvest season.")
      noContentRec (by decide) (by decide)).2.1 (by decide)
  rw [h]
  decide

/-- The fallback categorizer only ever returns "Other" or a key of the keyword
table. -/
theorem categorize_mem (t : Str) :
    categorize_by_keywords t = str "Other" ∨
      categorize_by_keywords t ∈ category_keywords.map Prod.fst := by
  by_cases ht : t = []
  · left; simp [categorize_by_keywords, ht]
  · cases hs : scoredCategories (lowerStr t) with
    | nil => left; simp [categorize_by_keywords, ht, hs]
    | cons x xs =>
      right
      have hval : categorize_by_keywords t = (pickMax x xs).1 := by
        simp [categorize_by_keywords, ht, hs]
      have hmem : pickMax x xs ∈ scoredCategories (lowerStr t) := by
        rw [hs]; exact pickMax_mem_cons xs x
      obtain ⟨p, hp, hgp⟩ := List.mem_map.mp (List.mem_filter.mp hmem).1
      rw [hval, ← hgp]
      exact List.mem_map.mpr ⟨p, hp, rfl⟩

/-- C8 counterexample: for a record needing a category with no about content,
`LocalEnricher.run` writes "Uncategorized", which is neither in the twenty-label
taxonomy nor one of the sentinels {"No Data","Error","Unknown","Other"}. -/
theorem category_taxonomy_cex :
    (localEnrichOne [] noContentRec).category = some (str "Uncategorized") ∧
    str "Uncategorized" ∉ allowed_category_values := by
  refine ⟨by decide, by decide⟩

/-- C8 amended: every keyword-table label is in the twenty-label taxonomy, and
`LocalEnricher.run` either leaves a record's category unchanged or writes a
taxonomy label, "Other", or — when no content is available — "Uncategorized". -/
theorem category_values_amended :
    (∀ p ∈ category_keywords, p.1 ∈ categories) ∧
    (∀ (about : Str) (r : Rec),
      (localEnrichOne about r).category = r.category ∨
      (∃ c, (localEnrichOne about r).category = some c ∧
        (c ∈ categories ∨ c = str "Uncategorized"))) := by
  have hsub : ∀ p ∈ category_keywords, p.1 ∈ categories := by decide
  refine ⟨hsub, ?_⟩
  intro about r
  rw [localEnrichOne_category]
  by_cases hc : needs_category_local r = true
  · rw [if_pos hc]
    right
    by_cases hcl : clean_text about = []
    · exact ⟨str "Uncategorized", by rw [if_pos hcl], Or.inr rfl⟩
    · refine ⟨categorize_by_keywords (clean_text about), by rw [if_neg hcl], Or.inl ?_⟩
      rcases categorize_mem (clean_text about) with h | h
      · rw [h]; decide
      · obtain ⟨p, hp, hfp⟩ := List.mem_map.mp h
        rw [← hfp]
        exact hsub p hp
  · rw [if_neg hc]; exact Or.inl rfl

/-- Witness for the amended C8 at a concrete record. -/
theorem category_values_amended_witness :
    str "Healthcare & Biotech" ∈ categories ∧
    ((localEnrichOne [] noContentRec).category = noContentRec.category ∨
      (∃ c, (localEnrichOne [] noContentRec).category = some c ∧
        (c ∈ categories ∨ c = str "Uncategorized"))) :=
  ⟨category_values_amended.1 (str "Healthcare & Biotech",
      [str "health", str "medical", str "patient", str "diagnostic", str "clinic",
       str "hospital", str "pharma", str "biotech"]) (by decide),
   category_values_amended.2 [] noContentRec⟩

/-- Work items whose names already have a record in `results` are skipped by the
resume loop: the loop state is untouched while they are consumed. -/
theorem runStage_skip {ι β : Type} (key : ι → Str) (produce : ι → β) :
    ∀ (l1 l2 : List ι) (res : List (Keyed β)),
      (∀ i ∈ l1, ∃ r ∈ res, r.name = key i) →
      runStage key produce (l1 ++ l2) res = runStage key produce l2 res
  | [], l2, res, _ => by simp
  | i :: l1, l2, res, h => by
    have hany : res.any (fun r => decide (r.name = key i)) = true := by
      rw [List.any_eq_true]
      obtain ⟨r, hr, hrn⟩ := h i (List.mem_cons_self i l1)
      exact ⟨r, hr, by simp [hrn]⟩
    rw [List.cons_append]
    simp only [runStage]
    rw [if_pos hany]
    exact runStage_skip key produce l1 l2 res
      (fun j hj => h j (List.mem_cons_of_mem i hj))

/-- On work items none of whose names have a record yet (and with pairwise
distinct names), the resume loop invokes the producer on every item in order and
appends the produced records behind the existing ones. -/
theorem runStage_fresh {ι β : Type} (key : ι → Str) (produce : ι → β) :
    ∀ (items : List ι) (res : List (Keyed β)),
      (∀ i ∈ items, ∀ r ∈ res, r.name ≠ key i) →
      (items.map key).Nodup →
      runStage key produce items res =
        { results := res ++ items.map (fun i => ⟨key i, produce i⟩),
          invoked := items.map key }
  | [], res, _, _ => by simp [runStage]
  | i :: items, res, hfresh, hnd => by
    have hany : res.any (fun r => decide (r.name = key i)) = false := by
      rw [List.any_eq_false]
      intro r hr
      simp [hfresh i (List.mem_cons_self i items) r hr]
    simp only [runStage]
    rw [if_neg (by simp [hany])]
    have hnd' : (items.map key).Nodup := by
      rw [List.map_cons, List.nodup_cons] at hnd
      exact hnd.2
    have hfresh' : ∀ j ∈ items, ∀ r ∈ res ++ [(⟨key i, produce i⟩ : Keyed β)],
        r.name ≠ key j := by
      intro j hj r hr
      rcases List.mem_append.mp hr with hr | hr
      · exact hfresh j (List.mem_cons_of_mem i hj) r hr
      · rcases List.mem_singleton.mp hr with rfl
        intro hcontra
        rw [List.map_cons, List.nodup_cons] at hnd
        exact hnd.1 (List.mem_map.mpr ⟨j, hj, hcontra.symm⟩)
    rw [runStage_fresh key produce items
      (res ++ [({ name := key i, body := produce i } : Keyed β)]) hfresh' hnd']
    simp

/-- C1: general skip plus resume correctness for the shared stage loop. A work
item whose name is already in the stored results is consumed without invoking the
producer or changing state; and for a work list of distinct names whose first `k`
items were persisted by an interrupted fresh run, a new run with no limit (any
`start_index`, which `limit=None` ignores) invokes the producer on exactly the
remaining items, in order, appending them after the untouched first `k` records. -/
theorem checkpoint_resume {ι β : Type} (key : ι → Str) (produce : ι → β)
    (items : List ι) (k start_index : Nat)
    (hnd : (items.map key).Nodup) :
    (∀ (item : ι) (rest : List ι) (res : List (Keyed β)),
        (∃ r ∈ res, r.name = key item) →
        runStage key produce (item :: rest) res = runStage key produce rest res) ∧
    (stageRun key produce none 0 (items.take k) []).results =
      (items.take k).map (fun i => ⟨key i, produce i⟩) ∧
    stageRun key produce none start_index items
        ((stageRun key produce none 0 (items.take k) []).results) =
      { results := (items.take k).map (fun i => ⟨key i, produce i⟩) ++
          (items.drop k).map (fun i => ⟨key i, produce i⟩),
        invoked := (items.drop k).map key } := by
  have hndk : ((items.take k).map key).Nodup := by
    rw [List.map_take]
    exact List.Nodup.sublist (List.take_sublist k (items.map key)) hnd
  have hnddrop : ((items.drop k).map key).Nodup := by
    rw [List.map_drop]
    exact List.Nodup.sublist (List.drop_sublist k (items.map key)) hnd
  have hprior : (stageRun key produce none 0 (items.take k) []).results =
      (items.take k).map (fun i => ⟨key i, produce i⟩) := by
    show (runStage key produce (items.take k) []).results = _
    rw [runStage_fresh key produce (items.take k) []
      (fun i _ r hr => absurd hr (List.not_mem_nil r)) hndk]
    simp
  refine ⟨?_, hprior, ?_⟩
  · intro item rest res h
    exact runStage_skip key produce [item] rest res
      (fun j hj => by rcases List.mem_singleton.mp hj with rfl; exact h)
  · have hdisj : List.Disjoint ((items.map key).take k) ((items.map key).drop k) := by
      have h2 := hnd
      rw [← List.take_append_drop k (items.map key)] at h2
      exact (List.nodup_append.mp h2).2.2
    have hmain : runStage key produce items
        ((stageRun key produce none 0 (items.take k) []).results) =
        { results := (items.take k).map (fun i => ⟨key i, produce i⟩) ++
            (items.drop k).map (fun i => ⟨key i, produce i⟩),
          invoked := (items.drop k).map key } := by
      have hstep1 : runStage key produce items
          ((stageRun key produce none 0 (items.take k) []).results) =
          runStage key produce (items.take k ++ items.drop k)
            ((stageRun key produce none 0 (items.take k) []).results) := by
        rw [List.take_append_drop]
      rw [hstep1, hprior]
      rw [runStage_skip key produce (items.take k) (items.drop k) _
        (fun i hi => ⟨⟨key i, produce i⟩, List.mem_map.mpr ⟨i, hi, rfl⟩, rfl⟩)]
      rw [runStage_fresh key produce (items.drop k) _ ?_ hnddrop]
      intro j hj r hr
      obtain ⟨i, hi, hri⟩ := List.mem_map.mp hr
      rw [← hri]
      intro hcontra
      have hkeyij : key i = key j := hcontra
      exact hdisj
        (by rw [← List.map_take]; exact List.mem_map.mpr ⟨i, hi, rfl⟩)
        (by rw [← List.map_drop]; exact List.mem_map.mpr ⟨j, hj, hkeyij.symm⟩)
    exact hmain

/-- Witness for C1: with three distinct names of which the first two are already
persisted, an unlimited rerun (even with a nonzero offset argument) invokes the
producer only on the third. -/
theorem checkpoint_resume_witness :
    (([str "A", str "B", str "C"].map (fun n : Str => n)).Nodup) ∧
    stageRun (fun n : Str => n) (fun n => n) none 5 [str "A", str "B", str "C"]
        ((stageRun (fun n : Str => n) (fun n => n) none 0
            ([str "A", str "B", str "C"].take 2) []).results) =
      { results := ([str "A", str "B", str "C"].take 2).map
            (fun i => (⟨i, i⟩ : Keyed Str)) ++
          ([str "A", str "B", str "C"].drop 2).map (fun i => ⟨i, i⟩),
        invoked := ([str "A", str "B", str "C"].drop 2).map (fun n : Str => n) } :=
  ⟨by decide,
   (checkpoint_resume (fun n : Str => n) (fun n => n)
      [str "A", str "B", str "C"] 2 5 (by decide)).2.2⟩
